import Mathlib

/-!
Verification of the MongoDB-backed rate-limiter store of the
subscription-tracker repository (`src/middlewares/mongoStore.js`) and the
policy wrappers configured in `src/middlewares/rateLimit.middleware.js`.

The store state is modelled as an association list from keys to records,
mirroring one MongoDB collection.  Timestamps (`Date`) are modelled as
natural numbers (milliseconds since epoch); `totalHits` is an integer, as
in the source (a JavaScript number).  Every store method of the source
wraps its body in `try/catch`; this is modelled by a `Faults` record that
says which underlying driver calls throw, with the `catch` branch of each
method translated explicitly.
-/

namespace SubTracker

/-- A rate-limit record, following the `rateLimitSchema` of
`mongoStore.js`: `totalHits` (a number) and `resetTime` (a date). -/
structure RateLimitRecord where
  totalHits : Int
  resetTime : Nat
  deriving Repr, DecidableEq

abbrev Key := String

/-- One MongoDB collection of rate-limit records, keyed by `key`. -/
abbrev Store := List (Key × RateLimitRecord)

/-- Model of `this.model.findOne({ key })`: first record with the given key. -/
def findOne (st : Store) (key : Key) : Option RateLimitRecord :=
  (st.find? (fun kr => kr.1 == key)).map (fun kr => kr.2)

/-- Model of `this.model.create({ key, totalHits, resetTime })`: insert a new record. -/
def createRecord (st : Store) (key : Key) (r : RateLimitRecord) : Store :=
  (key, r) :: st

/-- Model of `record.save()`: persist the mutated document back, replacing the
record that `findOne` returned (the first one with this key). -/
def saveRecord : Store → Key → RateLimitRecord → Store
  | [], _, _ => []
  | kr :: rest, key, r =>
      if kr.1 == key then (key, r) :: rest else kr :: saveRecord rest key r

/-- Model of `this.model.deleteOne({ key })`: delete the first record with the key. -/
def deleteOne (st : Store) (key : Key) : Store :=
  st.eraseP (fun kr => kr.1 == key)

/-- Which underlying MongoDB driver operations throw.  `mongoStore.js`
catches any such error inside each store method. -/
structure Faults where
  findOneFails : Bool := false
  createFails : Bool := false
  saveFails : Bool := false
  deleteOneFails : Bool := false
  deleteManyFails : Bool := false
  deriving Repr, DecidableEq

/-- The healthy backend: no driver call throws. -/
def noFaults : Faults := {}

/-- Model of `MongoStore.increment(key)`, translated from `mongoStore.js` lines
44-91: compute `resetTime = now + windowMs`; `findOne`; if absent,
`create` a record with one hit; if present and `now >= resetTime`, reset
the hits and slide the window, else increment the hits; `save`; on any
driver error, fall back to the synthetic `{totalHits: 1, resetTime}`
with the store unchanged. -/
def increment (f : Faults) (st : Store) (now windowMs : Nat) (key : Key) :
    Store × RateLimitRecord :=
  let resetTime := now + windowMs
  if f.findOneFails then (st, ⟨1, resetTime⟩)
  else
    match findOne st key with
    | none =>
        if f.createFails then (st, ⟨1, resetTime⟩)
        else (createRecord st key ⟨1, resetTime⟩, ⟨1, resetTime⟩)
    | some r =>
        let r2 : RateLimitRecord :=
          if r.resetTime ≤ now then ⟨1, resetTime⟩
          else ⟨r.totalHits + 1, r.resetTime⟩
        if f.saveFails then (st, ⟨1, resetTime⟩)
        else (saveRecord st key r2, r2)

/-- Model of `MongoStore.decrement(key)`, lines 96-106: `findOne`; if a record is
present and `totalHits > 0`, decrement and `save`; otherwise do nothing;
any driver error is caught and logged.  Note the source consults no
clock here: presence, not expiry, is what is checked. -/
def decrement (f : Faults) (st : Store) (key : Key) : Store :=
  if f.findOneFails then st
  else
    match findOne st key with
    | none => st
    | some r =>
        if 0 < r.totalHits then
          if f.saveFails then st
          else saveRecord st key ⟨r.totalHits - 1, r.resetTime⟩
        else st

/-- Model of `MongoStore.resetKey(key)`, lines 111-117: `deleteOne` regardless of
expiry; errors caught and logged. -/
def resetKey (f : Faults) (st : Store) (key : Key) : Store :=
  if f.deleteOneFails then st else deleteOne st key

/-- Model of `MongoStore.get(key)`, lines 122-144: `findOne`; absent gives
`undefined`; an expired record (`now >= resetTime`) is deleted and
`undefined` returned; otherwise the record is returned; any driver error
gives `undefined` with the store unchanged. -/
def get (f : Faults) (st : Store) (now : Nat) (key : Key) :
    Store × Option RateLimitRecord :=
  if f.findOneFails then (st, none)
  else
    match findOne st key with
    | none => (st, none)
    | some r =>
        if r.resetTime ≤ now then
          if f.deleteOneFails then (st, none)
          else (deleteOne st key, none)
        else (st, some r)

/-- Model of `MongoStore.cleanup()`, lines 149-156:
`deleteMany({ resetTime: { $lte: now } })`; errors caught and logged. -/
def cleanup (f : Faults) (st : Store) (now : Nat) : Store :=
  if f.deleteManyFails then st
  else st.filter (fun kr => !(kr.2.resetTime ≤ now : Bool))

/-- One invocation of a `MongoStore` method, together with the clock it
observes and the driver faults in effect during that call. -/
inductive StoreOp where
  | inc (f : Faults) (now windowMs : Nat) (key : Key)
  | dec (f : Faults) (key : Key)
  | reset (f : Faults) (key : Key)
  | read (f : Faults) (now : Nat) (key : Key)
  | clean (f : Faults) (now : Nat)
  deriving Repr, DecidableEq

/-- The effect of one store-method invocation on the collection. -/
def applyOp (st : Store) : StoreOp → Store
  | .inc f now w key => (increment f st now w key).1
  | .dec f key => decrement f st key
  | .reset f key => resetKey f st key
  | .read f now key => (get f st now key).1
  | .clean f now => cleanup f st now

/-- The effect of a sequence of store-method invocations. -/
def applyOps (st : Store) (ops : List StoreOp) : Store :=
  ops.foldl applyOp st

/-- All records hold a non-negative hit count. -/
abbrev NonnegStore (st : Store) : Prop :=
  ∀ kr ∈ st, 0 ≤ kr.2.totalHits

/-- Well-formed collection: at most one record per key (the schema
declares `key` unique with a unique index). -/
abbrev WF (st : Store) : Prop :=
  (st.map Prod.fst).Nodup

/-- The shared MongoDB database: one collection of rate-limit records per
collection name.  Each `MongoStore` instance binds `this.model` to its own
`options.collectionName` in the constructor (lines 29-39), so each of its
methods addresses exactly one collection. -/
def DataBase := String → Store

/-- Run one store method of the instance owning collection `coll`. -/
def dbApplyOp (db : DataBase) (coll : String) (op : StoreOp) : DataBase :=
  fun c => if c = coll then applyOp (db c) op else db c

/-- Run a sequence of store methods, all through the instance owning
collection `coll`. -/
def dbApplyOps (db : DataBase) (coll : String) (ops : List StoreOp) : DataBase :=
  ops.foldl (fun d op => dbApplyOp d coll op) db

/-- Configuration of one rate-limit policy instance in
`rateLimit.middleware.js`: window, ceiling, backing collection, and the
handler's response body fields. -/
structure LimiterConfig where
  windowMs : Nat
  maxRequests : Nat
  collectionName : String
  errorMessage : String
  retryAfter : String
  deriving Repr, DecidableEq

/-- The `generalLimiter` instance: 100 requests per 15 minutes. -/
def generalLimiter : LimiterConfig :=
  { windowMs := 15 * 60 * 1000
    maxRequests := 100
    collectionName := "general_rate_limits"
    errorMessage := "Too many requests from this IP, please try again later."
    retryAfter := "15 minutes" }

/-- The `authLimiter` instance: 5 requests per 15 minutes. -/
def authLimiter : LimiterConfig :=
  { windowMs := 15 * 60 * 1000
    maxRequests := 5
    collectionName := "auth_rate_limits"
    errorMessage := "Too many authentication attempts from this IP, please try again later."
    retryAfter := "15 minutes" }

/-- The `subscriptionLimiter` instance: 200 requests per 15 minutes. -/
def subscriptionLimiter : LimiterConfig :=
  { windowMs := 15 * 60 * 1000
    maxRequests := 200
    collectionName := "subscription_rate_limits"
    errorMessage := "Too many subscription requests from this IP, please try again later."
    retryAfter := "15 minutes" }

/-- The `userLimiter` instance: 50 requests per 15 minutes. -/
def userLimiter : LimiterConfig :=
  { windowMs := 15 * 60 * 1000
    maxRequests := 50
    collectionName := "user_rate_limits"
    errorMessage := "Too many user management requests from this IP, please try again later."
    retryAfter := "15 minutes" }

/-- The structured rejection body emitted by each limiter's `handler`. -/
structure ResponseBody where
  success : Bool
  error : String
  retryAfter : String
  deriving Repr, DecidableEq

/-- What the policy wrapper does with one request. -/
inductive Outcome where
  | forwarded
  | rejected (status : Nat) (body : ResponseBody)
  deriving Repr, DecidableEq

/-- Modelled from the spec: the policy wrapper around the store.  The
wrapper itself (the `rateLimit` pipeline stage) is the express-rate-limit
dependency, not part of this repository's sources; spec section 4.2 gives
its contract: call `increment` for the derived key, and if
`totalHits > maxRequests`, short-circuit with status 429 and the
class-specific structured body, else forward the request.  The limits and
handler bodies are those configured in `rateLimit.middleware.js`. -/
def handleRequest (cfg : LimiterConfig) (f : Faults) (st : Store) (now : Nat)
    (key : Key) : Store × Outcome :=
  let res := increment f st now cfg.windowMs key
  if cfg.maxRequests < res.2.totalHits then
    (res.1, .rejected 429 ⟨false, cfg.errorMessage, cfg.retryAfter⟩)
  else (res.1, .forwarded)

/-- Runs `n` consecutive requests with the same key through one policy
wrapper, returning the final collection state and the outcomes in
order. -/
def runRequests (cfg : LimiterConfig) (f : Faults) (st : Store) (now : Nat)
    (key : Key) : Nat → Store × List Outcome
  | 0 => (st, [])
  | n + 1 =>
      let first := handleRequest cfg f st now key
      let rest := runRequests cfg f first.1 now key n
      (rest.1, first.2 :: rest.2)

/-- The read phase of `increment`: the `findOne` on line 50 of
`mongoStore.js` that observes the current record. -/
def incrementReadPhase (st : Store) (key : Key) : Option RateLimitRecord :=
  findOne st key

/-- The write phase of `increment`: everything the method does after its
`findOne` returned `found` — `create` a fresh record, or mutate the
observed document and `save` it (lines 52-81 of `mongoStore.js`). -/
def incrementWritePhase (st : Store) (now windowMs : Nat) (key : Key)
    (found : Option RateLimitRecord) : Store × RateLimitRecord :=
  let resetTime := now + windowMs
  match found with
  | none => (createRecord st key ⟨1, resetTime⟩, ⟨1, resetTime⟩)
  | some r =>
      let r2 : RateLimitRecord :=
        if r.resetTime ≤ now then ⟨1, resetTime⟩
        else ⟨r.totalHits + 1, r.resetTime⟩
      (saveRecord st key r2, r2)

/-! ## Basic lemmas about the collection primitives -/

theorem findOne_cons (k : Key) (r : RateLimitRecord) (st : Store) (key : Key) :
    findOne ((k, r) :: st) key = if k = key then some r else findOne st key := by
  by_cases h : k = key <;> simp [findOne, List.find?_cons, h]

theorem saveRecord_cons (k : Key) (r0 : RateLimitRecord) (rest : Store)
    (key : Key) (r : RateLimitRecord) :
    saveRecord ((k, r0) :: rest) key r
      = if k = key then (key, r) :: rest else (k, r0) :: saveRecord rest key r := by
  by_cases h : k = key <;> simp [saveRecord, h]

theorem deleteOne_cons (k : Key) (r : RateLimitRecord) (rest : Store) (key : Key) :
    deleteOne ((k, r) :: rest) key
      = if k = key then rest else (k, r) :: deleteOne rest key := by
  by_cases h : k = key <;> simp [deleteOne, List.eraseP_cons, h]

theorem findOne_eq_none_of_not_mem (st : Store) (key : Key)
    (h : key ∉ st.map Prod.fst) : findOne st key = none := by
  induction st with
  | nil => rfl
  | cons kr rest ih =>
      simp only [List.map_cons, List.mem_cons] at h
      push_neg at h
      rcases kr with ⟨k, r⟩
      have hne : ¬ (k = key) := fun e => h.1 e.symm
      rw [findOne_cons, if_neg hne]
      exact ih h.2

theorem findOne_mem (st : Store) (key : Key) (r : RateLimitRecord)
    (h : findOne st key = some r) : (key, r) ∈ st := by
  induction st with
  | nil => simp [findOne] at h
  | cons kr rest ih =>
      rcases kr with ⟨k, r1⟩
      by_cases hk : k = key
      · subst hk
        rw [findOne_cons, if_pos rfl] at h
        simp only [Option.some.injEq] at h
        subst h
        exact List.mem_cons_self _ _
      · rw [findOne_cons, if_neg hk] at h
        exact List.mem_cons_of_mem _ (ih h)

theorem findOne_deleteOne (st : Store) (key : Key) (hwf : WF st) :
    findOne (deleteOne st key) key = none := by
  induction st with
  | nil => rfl
  | cons kr rest ih =>
      rcases kr with ⟨k, r⟩
      unfold WF at hwf
      simp only [List.map_cons, List.nodup_cons] at hwf
      by_cases h : k = key
      · subst h
        rw [deleteOne_cons, if_pos rfl]
        exact findOne_eq_none_of_not_mem rest k hwf.1
      · rw [deleteOne_cons, if_neg h, findOne_cons, if_neg h]
        exact ih hwf.2

theorem mem_saveRecord (st : Store) (key : Key) (r : RateLimitRecord)
    (kr : Key × RateLimitRecord) (h : kr ∈ saveRecord st key r) :
    kr = (key, r) ∨ kr ∈ st := by
  induction st with
  | nil => simp [saveRecord] at h
  | cons kr0 rest ih =>
      rcases kr0 with ⟨k, r0⟩
      by_cases hk : k = key
      · rw [saveRecord_cons, if_pos hk] at h
        rcases List.mem_cons.1 h with h1 | h1
        · exact Or.inl h1
        · exact Or.inr (List.mem_cons_of_mem _ h1)
      · rw [saveRecord_cons, if_neg hk] at h
        rcases List.mem_cons.1 h with h1 | h1
        · exact Or.inr (h1 ▸ List.mem_cons_self _ _)
        · rcases ih h1 with h2 | h2
          · exact Or.inl h2
          · exact Or.inr (List.mem_cons_of_mem _ h2)

theorem findOne_saveRecord (st : Store) (key : Key)
    (r0 r : RateLimitRecord) (h : findOne st key = some r0) :
    findOne (saveRecord st key r) key = some r := by
  induction st with
  | nil => simp [findOne] at h
  | cons kr rest ih =>
      rcases kr with ⟨k, r1⟩
      by_cases hk : k = key
      · rw [saveRecord_cons, if_pos hk, findOne_cons, if_pos rfl]
      · rw [findOne_cons, if_neg hk] at h
        rw [saveRecord_cons, if_neg hk, findOne_cons, if_neg hk]
        exact ih h

theorem findOne_createRecord (st : Store) (key : Key) (r : RateLimitRecord) :
    findOne (createRecord st key r) key = some r := by
  rw [createRecord, findOne_cons, if_pos rfl]

/-! ## Unfolding lemmas for the three branches of `increment` -/

theorem increment_absent (st : Store) (now w : Nat) (key : Key)
    (h : findOne st key = none) :
    increment noFaults st now w key
      = (createRecord st key ⟨1, now + w⟩, ⟨1, now + w⟩) := by
  simp [increment, noFaults, h]

theorem increment_expired (st : Store) (now w : Nat) (key : Key)
    (r : RateLimitRecord) (h : findOne st key = some r)
    (hexp : r.resetTime ≤ now) :
    increment noFaults st now w key
      = (saveRecord st key ⟨1, now + w⟩, ⟨1, now + w⟩) := by
  simp only [increment, noFaults, h]
  simp [if_pos hexp]

theorem increment_live (st : Store) (now w : Nat) (key : Key)
    (r : RateLimitRecord) (h : findOne st key = some r)
    (hopen : now < r.resetTime) :
    increment noFaults st now w key
      = (saveRecord st key ⟨r.totalHits + 1, r.resetTime⟩,
         ⟨r.totalHits + 1, r.resetTime⟩) := by
  simp only [increment, noFaults, h]
  simp [if_neg (not_le.2 hopen)]


/-! ## Invariant-preservation lemmas -/

theorem mem_deleteOne (st : Store) (key : Key) (kr : Key × RateLimitRecord)
    (h : kr ∈ deleteOne st key) : kr ∈ st :=
  (List.eraseP_sublist st).subset h

theorem applyOp_nonneg (st : Store) (op : StoreOp) (h : NonnegStore st) :
    NonnegStore (applyOp st op) := by
  cases op with
  | inc f now w key =>
      show NonnegStore (increment f st now w key).1
      by_cases hf1 : f.findOneFails
      · simpa [increment, hf1] using h
      · cases hfind : findOne st key with
        | none =>
            by_cases hf2 : f.createFails
            · simpa [increment, hf1, hf2, hfind] using h
            · simp only [increment, hf1, hfind, hf2]
              intro kr hkr
              simp only [Bool.false_eq_true, if_false, createRecord,
                List.mem_cons] at hkr
              rcases hkr with rfl | hkr
              · norm_num
              · exact h kr hkr
        | some r =>
            have hr : 0 ≤ r.totalHits := h _ (findOne_mem st key r hfind)
            by_cases hf3 : f.saveFails
            · simpa [increment, hf1, hf3, hfind] using h
            · simp only [increment, hf1, hfind, hf3]
              intro kr hkr
              simp only [Bool.false_eq_true, if_false] at hkr
              rcases mem_saveRecord _ _ _ _ hkr with rfl | hkr
              · by_cases hexp : r.resetTime ≤ now
                · simp [hexp]
                · simp [hexp]; omega
              · exact h kr hkr
  | dec f key =>
      show NonnegStore (decrement f st key)
      by_cases hf1 : f.findOneFails
      · simpa [decrement, hf1] using h
      · cases hfind : findOne st key with
        | none => simpa [decrement, hf1, hfind] using h
        | some r =>
            by_cases hpos : 0 < r.totalHits
            · by_cases hf3 : f.saveFails
              · simpa [decrement, hf1, hfind, hpos, hf3] using h
              · simp only [decrement, hf1, hfind, hpos, hf3]
                intro kr hkr
                simp only [Bool.false_eq_true, if_false, if_pos hpos] at hkr
                rcases mem_saveRecord _ _ _ _ hkr with rfl | hkr
                · simp; omega
                · exact h kr hkr
            · simpa [decrement, hf1, hfind, hpos] using h
  | reset f key =>
      show NonnegStore (resetKey f st key)
      by_cases hf : f.deleteOneFails
      · simpa [resetKey, hf] using h
      · simp only [resetKey, hf]
        intro kr hkr
        exact h kr (mem_deleteOne st key kr (by simpa using hkr))
  | read f now key =>
      show NonnegStore (get f st now key).1
      by_cases hf1 : f.findOneFails
      · simpa [get, hf1] using h
      · cases hfind : findOne st key with
        | none => simpa [get, hf1, hfind] using h
        | some r =>
            by_cases hexp : r.resetTime ≤ now
            · by_cases hf4 : f.deleteOneFails
              · simpa [get, hf1, hfind, hexp, hf4] using h
              · simp only [get, hf1, hfind, hexp, hf4]
                intro kr hkr
                simp only [Bool.false_eq_true, if_false, if_pos hexp] at hkr
                exact h kr (mem_deleteOne st key kr hkr)
            · simpa [get, hf1, hfind, hexp] using h
  | clean f now =>
      show NonnegStore (cleanup f st now)
      by_cases hf : f.deleteManyFails
      · simpa [cleanup, hf] using h
      · have hcl : cleanup f st now
            = st.filter (fun kr => !(kr.2.resetTime ≤ now : Bool)) := by
          simp [cleanup, hf]
        rw [hcl]
        intro kr hkr
        simp only [List.mem_filter] at hkr
        exact h kr hkr.1

theorem applyOps_nonneg (ops : List StoreOp) (st : Store) (h : NonnegStore st) :
    NonnegStore (applyOps st ops) := by
  induction ops generalizing st with
  | nil => exact h
  | cons op rest ih => exact ih (applyOp st op) (applyOp_nonneg st op h)

/-! ## Frame lemmas for the per-instance collections -/

theorem dbApplyOp_frame (db : DataBase) (coll c2 : String) (op : StoreOp)
    (h : c2 ≠ coll) : dbApplyOp db coll op c2 = db c2 := by
  simp [dbApplyOp, h]

theorem dbApplyOps_frame (ops : List StoreOp) (db : DataBase)
    (coll c2 : String) (h : c2 ≠ coll) :
    dbApplyOps db coll ops c2 = db c2 := by
  induction ops generalizing db with
  | nil => rfl
  | cons op rest ih =>
      show dbApplyOps (dbApplyOp db coll op) coll rest c2 = db c2
      rw [ih (dbApplyOp db coll op), dbApplyOp_frame db coll c2 op h]

/-! ## The claims -/

/-- Claim C1: for every key and every store state, `increment` returns and
persists: a fresh record with one hit and `resetTime = now + windowMs`
when no record exists; a record reset to one hit with
`resetTime = now + windowMs` when the existing record's window has
expired (`now >= resetTime`); and the record with `totalHits` incremented
by one and `resetTime` unchanged when the window is still open. -/
theorem increment_correct (st : Store) (now w : Nat) (key : Key) :
    (findOne st key = none →
        (increment noFaults st now w key).2 = ⟨1, now + w⟩ ∧
        findOne (increment noFaults st now w key).1 key = some ⟨1, now + w⟩)
    ∧ (∀ r, findOne st key = some r → r.resetTime ≤ now →
        (increment noFaults st now w key).2 = ⟨1, now + w⟩ ∧
        findOne (increment noFaults st now w key).1 key = some ⟨1, now + w⟩)
    ∧ (∀ r, findOne st key = some r → now < r.resetTime →
        (increment noFaults st now w key).2 = ⟨r.totalHits + 1, r.resetTime⟩ ∧
        findOne (increment noFaults st now w key).1 key
          = some ⟨r.totalHits + 1, r.resetTime⟩) := by
  refine ⟨fun h => ?_, fun r h hexp => ?_, fun r h hopen => ?_⟩
  · rw [increment_absent st now w key h]
    exact ⟨rfl, findOne_createRecord st key _⟩
  · rw [increment_expired st now w key r h hexp]
    exact ⟨rfl, findOne_saveRecord st key r _ h⟩
  · rw [increment_live st now w key r h hopen]
    exact ⟨rfl, findOne_saveRecord st key r _ h⟩

/-- Witness for C1 at the concrete fresh key "k". -/
theorem increment_correct_witness :
    (increment noFaults [] 10 5 "k").2 = ⟨1, 15⟩ ∧
    findOne (increment noFaults [] 10 5 "k").1 "k" = some ⟨1, 15⟩ :=
  (increment_correct [] 10 5 "k").1 rfl

/-- Claim C2: when an underlying driver call inside `increment` throws,
`increment` returns the synthetic record with one hit and
`resetTime = now + windowMs`, leaving the store unchanged; and `get`,
`decrement`, `resetKey` and `cleanup` likewise swallow driver errors,
degrading to absent / no-op results. -/
theorem store_fails_open (f : Faults) (st : Store) (now w : Nat) (key : Key) :
    (f.findOneFails = true →
        increment f st now w key = (st, ⟨1, now + w⟩)
        ∧ decrement f st key = st
        ∧ get f st now key = (st, none))
    ∧ (f.createFails = true → findOne st key = none →
        increment f st now w key = (st, ⟨1, now + w⟩))
    ∧ (f.saveFails = true → ∀ r, findOne st key = some r →
        increment f st now w key = (st, ⟨1, now + w⟩))
    ∧ (f.deleteOneFails = true →
        resetKey f st key = st
        ∧ (f.findOneFails = false → ∀ r, findOne st key = some r →
            r.resetTime ≤ now → get f st now key = (st, none)))
    ∧ (f.deleteManyFails = true → cleanup f st now = st) := by
  refine ⟨fun h1 => ?_, fun h2 hn => ?_, fun h3 r hr => ?_,
    fun h4 => ⟨?_, fun h1f r hr hexp => ?_⟩, fun h5 => ?_⟩
  · exact ⟨by simp [increment, h1], by simp [decrement, h1], by simp [get, h1]⟩
  · simp [increment, h2, hn]
  · simp [increment, h3, hr]
  · simp [resetKey, h4]
  · simp [get, h1f, hr, hexp, h4]
  · simp [cleanup, h5]

/-- Witness for C2 with every driver call failing. -/
theorem store_fails_open_witness :
    increment ⟨true, true, true, true, true⟩ [] 3 7 "k" = ([], ⟨1, 10⟩)
    ∧ decrement ⟨true, true, true, true, true⟩ [] "k" = []
    ∧ get ⟨true, true, true, true, true⟩ [] 3 "k" = ([], none) :=
  (store_fails_open ⟨true, true, true, true, true⟩ [] 3 7 "k").1 rfl

/-- Claim C3 (evaluated at the failing schedule): `increment` is not a
single atomic store operation — it is exactly a read phase (`findOne`)
followed by a separate write phase (`create`/`save`), and under the
interleaving in which two calls for the same key both run their read
phase before either write phase, an update is lost: after one completed
`increment` and two such interleaved `increment` calls (three calls in
all, within one window), the persisted `totalHits` is 2, short of 3. -/
theorem increment_lost_update :
    (∀ (st : Store) (now w : Nat) (key : Key),
        increment noFaults st now w key
          = incrementWritePhase st now w key (incrementReadPhase st key))
    ∧ (let st0 := (increment noFaults [] 0 900000 "k").1
       let obsA := incrementReadPhase st0 "k"
       let obsB := incrementReadPhase st0 "k"
       let st1 := (incrementWritePhase st0 1 900000 "k" obsA).1
       let st2 := (incrementWritePhase st1 2 900000 "k" obsB).1
       findOne st2 "k" = some ⟨2, 900000⟩ ∧ (2 : Int) < 3) := by
  refine ⟨fun st now w key => ?_, by decide⟩
  simp [increment, incrementWritePhase, incrementReadPhase, noFaults]

/-- Claim C4: with the `authLimiter` configuration (ceiling 5), six
consecutive requests with the same client key yield five forwarded
requests followed by one rejection with status 429 and the structured
body of the auth handler, in that order; the sixth call sees
`totalHits = 6`, exceeding the ceiling. -/
theorem authLimiter_six_requests :
    (runRequests authLimiter noFaults [] 0 "client" 6).2
      = [Outcome.forwarded, Outcome.forwarded, Outcome.forwarded,
         Outcome.forwarded, Outcome.forwarded,
         Outcome.rejected 429
           ⟨false,
            "Too many authentication attempts from this IP, please try again later.",
            "15 minutes"⟩]
    ∧ authLimiter.maxRequests = 5
    ∧ (increment noFaults (runRequests authLimiter noFaults [] 0 "client" 5).1 0
          authLimiter.windowMs "client").2.totalHits = 6 := by
  refine ⟨by decide, rfl, by decide⟩

/-- Claim C5: `get` on an expired record deletes it and returns absent,
and a subsequent `get` (at any clock) also returns absent; `get` on a
missing key returns absent with the store untouched; and on an
underlying driver error `get` returns absent instead of throwing. -/
theorem get_correct (st : Store) (now now2 : Nat) (key : Key) (hwf : WF st) :
    (findOne st key = none → get noFaults st now key = (st, none))
    ∧ (∀ r, findOne st key = some r → r.resetTime ≤ now →
        (get noFaults st now key).2 = none
        ∧ findOne (get noFaults st now key).1 key = none
        ∧ (get noFaults (get noFaults st now key).1 now2 key).2 = none)
    ∧ (∀ f : Faults, f.findOneFails = true → get f st now key = (st, none)) := by
  refine ⟨fun h => by simp [get, noFaults, h], fun r h hexp => ?_,
    fun f hf => by simp [get, hf]⟩
  have hres : get noFaults st now key = (deleteOne st key, none) := by
    simp only [get, noFaults, h]
    simp [if_pos hexp]
  have hgone : findOne (deleteOne st key) key = none := findOne_deleteOne st key hwf
  refine ⟨by rw [hres], by rw [hres]; exact hgone, ?_⟩
  rw [hres]
  simp [get, noFaults, hgone]

/-- Witness for C5 on a concrete expired record. -/
theorem get_correct_witness :
    (get noFaults [("k", ⟨3, 10⟩)] 10 "k").2 = none
    ∧ findOne (get noFaults [("k", ⟨3, 10⟩)] 10 "k").1 "k" = none
    ∧ (get noFaults (get noFaults [("k", ⟨3, 10⟩)] 10 "k").1 0 "k").2 = none :=
  (get_correct [("k", ⟨3, 10⟩)] 10 0 "k" (by decide)).2.1 ⟨3, 10⟩ rfl (by decide)

/-- Counterexample to claim C6 as stated: at clock 200 the record
`("k", totalHits 2, resetTime 100)` is expired (`100 <= 200`), so under
the claim's "treat expired records as absent" reading `decrement` would
be a no-op; the source's `decrement` consults no clock and decrements
the record to 1 anyway. -/
theorem decrement_expired_not_noop :
    (100 : Nat) ≤ 200
    ∧ decrement noFaults [("k", ⟨2, 100⟩)] "k" = [("k", ⟨1, 100⟩)]
    ∧ decide (decrement noFaults [("k", ⟨2, 100⟩)] "k"
        = [("k", ⟨2, 100⟩)]) = false := by
  refine ⟨by decide, by decide, by decide⟩

/-- Claim C6 as amended: `decrement` decrements `totalHits` by exactly
one and persists whenever a record is physically present with
`totalHits > 0` — expired or not; it is a no-op when the record is
absent or `totalHits` is already at or below zero; and driver errors are
swallowed, never thrown. -/
theorem decrement_correct (f : Faults) (st : Store) (key : Key) :
    (findOne st key = none → decrement f st key = st)
    ∧ (∀ r, findOne st key = some r → r.totalHits ≤ 0 → decrement f st key = st)
    ∧ (∀ r, findOne st key = some r → 0 < r.totalHits →
        findOne (decrement noFaults st key) key
          = some ⟨r.totalHits - 1, r.resetTime⟩)
    ∧ (f.findOneFails = true → decrement f st key = st) := by
  refine ⟨fun h => ?_, fun r h h0 => ?_, fun r h h0 => ?_,
    fun hf => by simp [decrement, hf]⟩
  · by_cases hf : f.findOneFails <;> simp [decrement, hf, h]
  · by_cases hf : f.findOneFails <;> simp [decrement, hf, h, not_lt.2 h0]
  · simp only [decrement, noFaults, h]
    simp only [if_pos h0]
    exact findOne_saveRecord st key r _ h

/-- Witness for the amended C6 on a concrete two-hit record. -/
theorem decrement_correct_witness :
    findOne (decrement noFaults [("k", ⟨2, 100⟩)] "k") "k" = some ⟨1, 100⟩ :=
  (decrement_correct noFaults [("k", ⟨2, 100⟩)] "k").2.2.1 ⟨2, 100⟩ rfl (by decide)

/-- Claim C7: `totalHits` is never negative — starting from any store
whose records all have non-negative counts (the empty store included),
every state reached by any sequence of `increment`, `decrement`,
`resetKey`, `get` and `cleanup` calls, under any fault pattern, has
non-negative counts in every record. -/
theorem totalHits_never_negative (ops : List StoreOp) (st : Store)
    (h : NonnegStore st) :
    NonnegStore (applyOps st ops) ∧ NonnegStore (applyOps [] ops) :=
  ⟨applyOps_nonneg ops st h, applyOps_nonneg ops [] (by intro kr hkr; cases hkr)⟩

/-- Witness for C7: a decrement at count zero leaves the count at 0. -/
theorem totalHits_never_negative_witness :
    (0 : Int) ≤ (("k", (⟨0, 10⟩ : RateLimitRecord)) : Key × RateLimitRecord).2.totalHits :=
  (totalHits_never_negative [StoreOp.dec noFaults "k"] [("k", ⟨0, 10⟩)]
      (by decide)).1 ("k", ⟨0, 10⟩) (by decide)

/-- Claim C8: each policy instance owns its own collection, so any
sequence of store operations through one instance leaves every record of
any other instance's collection unchanged; in particular five
`increment` calls through the auth store (ceiling 5) leave the general
store (ceiling 100) untouched for the same client key. -/
theorem store_keyspace_isolation (db : DataBase) (ops : List StoreOp)
    (key : Key) (now : Nat) :
    (∀ coll c2 : String, c2 ≠ coll → dbApplyOps db coll ops c2 = db c2)
    ∧ dbApplyOps db authLimiter.collectionName
        (List.replicate 5 (StoreOp.inc noFaults now authLimiter.windowMs key))
        generalLimiter.collectionName
      = db generalLimiter.collectionName := by
  refine ⟨fun coll c2 h => dbApplyOps_frame ops db coll c2 h, ?_⟩
  exact dbApplyOps_frame _ db _ _ (by decide)

/-- Witness for C8 on concrete collections and an empty database. -/
theorem store_keyspace_isolation_witness :
    (dbApplyOps (fun _ => []) "auth_rate_limits"
        [StoreOp.inc noFaults 0 900000 "1.2.3.4"] "general_rate_limits") = []
    ∧ dbApplyOps (fun _ => []) authLimiter.collectionName
        (List.replicate 5 (StoreOp.inc noFaults 0 authLimiter.windowMs "1.2.3.4"))
        generalLimiter.collectionName
      = (fun _ : String => ([] : Store)) generalLimiter.collectionName :=
  ⟨(store_keyspace_isolation (fun _ => []) [StoreOp.inc noFaults 0 900000 "1.2.3.4"]
      "1.2.3.4" 0).1 "auth_rate_limits" "general_rate_limits" (by decide),
   (store_keyspace_isolation (fun _ => []) [] "1.2.3.4" 0).2⟩

/-- Claim C9: `resetKey` followed by `increment` behaves exactly like
`increment` on a brand-new key: it returns one hit with a fresh
`resetTime = now + windowMs` and persists that record, whatever the
previous record held. -/
theorem resetKey_then_increment (st : Store) (now w : Nat) (key : Key)
    (hwf : WF st) :
    (increment noFaults (resetKey noFaults st key) now w key).2 = ⟨1, now + w⟩
    ∧ findOne (increment noFaults (resetKey noFaults st key) now w key).1 key
        = some ⟨1, now + w⟩
    ∧ (increment noFaults (resetKey noFaults st key) now w key).2
        = (increment noFaults [] now w key).2 := by
  have hdel : findOne (resetKey noFaults st key) key = none := by
    simpa [resetKey, noFaults] using findOne_deleteOne st key hwf
  rw [increment_absent _ now w key hdel]
  exact ⟨rfl, findOne_createRecord _ key _, rfl⟩

/-- Witness for C9 on a concrete 99-hit, long-expired record. -/
theorem resetKey_then_increment_witness :
    (increment noFaults (resetKey noFaults [("k", ⟨99, 5⟩)] "k") 0 10 "k").2 = ⟨1, 10⟩
    ∧ findOne (increment noFaults (resetKey noFaults [("k", ⟨99, 5⟩)] "k") 0 10 "k").1 "k"
        = some ⟨1, 10⟩
    ∧ (increment noFaults (resetKey noFaults [("k", ⟨99, 5⟩)] "k") 0 10 "k").2
        = (increment noFaults [] 0 10 "k").2 :=
  resetKey_then_increment [("k", ⟨99, 5⟩)] 0 10 "k" (by decide)

/-- Claim C10: `cleanup` keeps exactly the records whose `resetTime` is
still in the future (deleting exactly those with `resetTime <= now`),
is idempotent, and swallows driver errors. -/
theorem cleanup_correct (st : Store) (now : Nat) :
    (∀ kr : Key × RateLimitRecord,
        kr ∈ cleanup noFaults st now ↔ kr ∈ st ∧ now < kr.2.resetTime)
    ∧ cleanup noFaults (cleanup noFaults st now) now = cleanup noFaults st now
    ∧ (∀ f : Faults, f.deleteManyFails = true → cleanup f st now = st) := by
  refine ⟨fun kr => ?_, ?_, fun f hf => by simp [cleanup, hf]⟩
  · simp [cleanup, noFaults, List.mem_filter, not_le]
  · simp [cleanup, noFaults, List.filter_filter]

/-- Witness for C10: a failing bulk delete leaves the store unchanged. -/
theorem cleanup_correct_witness :
    cleanup ⟨true, true, true, true, true⟩ [("a", ⟨1, 5⟩)] 9 = [("a", ⟨1, 5⟩)] :=
  (cleanup_correct [("a", ⟨1, 5⟩)] 9).2.2 ⟨true, true, true, true, true⟩ rfl

end SubTracker
